import Mathlib

/-!
Verification of the single-page tiff sequence reader
(`iohub/singlepagetiff.py`, class `MicromanagerSequenceReader`).

The Python code is shallowly embedded: every method of the class becomes an
executable Lean function over an explicit `State` record; Python exceptions
become `Except Err`; Python `dict`s become association lists with
insert-or-replace update (`dictInsert`), preserving insertion order exactly as
CPython dicts do; JSON metadata documents become ordered association lists of
`JEntry` records whose `Option` fields model present/absent JSON keys; the
filesystem is passed in explicitly as the list of position subdirectories with
their parsed `metadata.txt` documents.  String operations from Python
(`in`, `split`, `join`, `os.path.join`, `os.path.split`) are implemented
structurally over `List Char` so that everything evaluates by `rfl`/`decide`.
-/

set_option synthInstance.maxSize 1024

instance {ε α : Type} [DecidableEq ε] [DecidableEq α] : DecidableEq (Except ε α) :=
  fun x y =>
    match x, y with
    | .ok a, .ok b =>
      if h : a = b then isTrue (by rw [h]) else isFalse fun hh => h (Except.ok.inj hh)
    | .error a, .error b =>
      if h : a = b then isTrue (by rw [h]) else isFalse fun hh => h (Except.error.inj hh)
    | .ok _, .error _ => isFalse fun hh => Except.noConfusion hh
    | .error _, .ok _ => isFalse fun hh => Except.noConfusion hh

namespace SinglePageTiff

/-! ### Character-level string utilities (Python `in`, `split`, `join`) -/

/-- Does `pat` occur at the start of the text?  (helper for substring search) -/
def startsWithL : List Char → List Char → Bool
  | [], _ => true
  | _ :: _, [] => false
  | a :: as, b :: bs => a = b && startsWithL as bs

def containsL (pat : List Char) : List Char → Bool
  | [] => pat.isEmpty
  | c :: rest => startsWithL pat (c :: rest) || containsL pat rest

/-- Python `pat in s` (substring containment). -/
def containsSub (s pat : String) : Bool :=
  containsL pat.data s.data

/-- Python `s.split(sep)` for a single-character separator. -/
def splitCh (sep : Char) : List Char → List (List Char)
  | [] => [[]]
  | c :: cs =>
    if c = sep then [] :: splitCh sep cs
    else
      match splitCh sep cs with
      | [] => [[c]]
      | h :: t => (c :: h) :: t

/-- Python `sep.join(parts)` for a single-character separator. -/
def joinCh (sep : Char) : List (List Char) → List Char
  | [] => []
  | [x] => x
  | x :: xs => x ++ sep :: joinCh sep xs

/-- Python `'-'.join(c.split('-')[1:])`: the plane-identifying suffix of a key. -/
def dashTail (s : String) : String :=
  ⟨joinCh '-' ((splitCh '-' s.data).tail)⟩

/-- Python `os.path.join(a, b)` (POSIX, both arguments relative-style). -/
def pathJoin (a b : String) : String :=
  a ++ "/" ++ b

/-- Python `os.path.split(p)[1]`: everything after the last `/`. -/
def os_path_split_tail (p : String) : String :=
  ⟨(splitCh '/' p.data).getLastD []⟩

/-- Value of a digit run, as computed by Python `int()` on a digit string. -/
def digitsVal (cs : List Char) : Nat :=
  cs.foldl (fun a c => a * 10 + (c.toNat - 48)) 0

/-! ### Natural sort (model of `natsort.natsorted`)

`natsorted` tokenizes each string into maximal runs of digits (compared as
numbers) and non-digits (compared lexicographically by code point), and sorts
by the resulting keys; a numeric token sorts before a textual one. -/

inductive Tok where
  | txt (cs : List Char)
  | num (n : Nat)
deriving DecidableEq, Repr

def tokenizeAux : Nat → List Char → List Tok
  | 0, _ => []
  | _, [] => []
  | fuel + 1, c :: rest =>
    if c.isDigit then
      Tok.num (digitsVal ((c :: rest).takeWhile Char.isDigit)) ::
        tokenizeAux fuel ((c :: rest).dropWhile Char.isDigit)
    else
      Tok.txt ((c :: rest).takeWhile (fun d => !d.isDigit)) ::
        tokenizeAux fuel ((c :: rest).dropWhile (fun d => !d.isDigit))

def natKey (s : String) : List Tok :=
  tokenizeAux (s.data.length + 1) s.data

def natCmp (a b : Nat) : Ordering :=
  if a < b then .lt else if b < a then .gt else .eq

def charCmp (a b : Char) : Ordering :=
  natCmp a.toNat b.toNat

def strCmp : List Char → List Char → Ordering
  | [], [] => .eq
  | [], _ :: _ => .lt
  | _ :: _, [] => .gt
  | a :: as, b :: bs =>
    match charCmp a b with
    | .eq => strCmp as bs
    | o => o

def tokCmp : Tok → Tok → Ordering
  | .num a, .num b => natCmp a b
  | .txt a, .txt b => strCmp a b
  | .num _, .txt _ => .lt
  | .txt _, .num _ => .gt

def keyCmp : List Tok → List Tok → Ordering
  | [], [] => .eq
  | [], _ :: _ => .lt
  | _ :: _, [] => .gt
  | a :: as, b :: bs =>
    match tokCmp a b with
    | .eq => keyCmp as bs
    | o => o

/-- The natural-sort "is at most" relation on strings. -/
def natLeB (a b : String) : Bool :=
  keyCmp (natKey a) (natKey b) ≠ .gt

def natR (a b : String) : Prop :=
  natLeB a b = true

instance : DecidableRel natR := fun a b => instDecidableEqBool (natLeB a b) true

/-- Model of `natsort.natsorted` (a stable sort by the natural-order key). -/
def natsorted (l : List String) : List String :=
  List.insertionSort natR l

/-! ### Python dictionaries as ordered association lists -/

/-- Python `d[k] = v`: replace in place if the key exists, else append. -/
def dictInsert {α β : Type} [DecidableEq α] (l : List (α × β)) (k : α) (v : β) :
    List (α × β) :=
  if l.any (fun kv => kv.1 = k) then
    l.map (fun kv => if kv.1 = k then (k, v) else kv)
  else l ++ [(k, v)]

/-- Python `d.get(k)` / `k in d` + `d[k]`. -/
def lookupD {α β : Type} [DecidableEq α] (l : List (α × β)) (k : α) : Option β :=
  (l.find? (fun kv => kv.1 = k)).map (fun kv => kv.2)

/-- Python `d.update(new)`: every binding of `new`, in order, written into `d`. -/
def dictUpdate {α β : Type} [DecidableEq α] (d new : List (α × β)) : List (α × β) :=
  new.foldl (fun acc kv => dictInsert acc kv.1 kv.2) d

/-! ### The data model: errors, JSON metadata documents, stores, reader state -/

/-- Python exceptions raised by the reader. -/
inductive Err where
  /-- Python `KeyError k` (a missing dictionary key). -/
  | keyError (k : String)
  /-- `NotImplementedError` from `_set_mm_meta`, carrying the version string. -/
  | unsupported (version : String)
  /-- Python `ValueError msg`. -/
  | valueError (msg : String)
  /-- `IOError` from `_create_stores` for position `p`. -/
  | ioError (p : Nat)
  /-- `AttributeError` from `__init__` (no subdirectories). -/
  | attributeError (msg : String)
  /-- Python `IndexError` (list index out of range). -/
  | indexError
  /-- Python `FileNotFoundError msg`. -/
  | fileNotFound (msg : String)
deriving DecidableEq, Repr

/-- One property inside the beta-schema `UserData` block. -/
structure UserDataProp where
  PropVal : Option String := none
deriving DecidableEq, Repr

/-- The beta-schema `UserData` block. -/
structure UserDataT where
  Width : Option UserDataProp := none
  Height : Option UserDataProp := none
deriving DecidableEq, Repr

/-- One top-level JSON object of a `metadata.txt` document.  Each field models
one JSON key the reader may read; `none` models an absent key (Python
`KeyError` on access). -/
structure JEntry where
  ChannelIndex : Option Nat := none
  PositionIndex : Option Nat := none
  FrameIndex : Option Nat := none
  SliceIndex : Option Nat := none
  FileName : Option String := none
  ROI : Option String := none
  Width : Option Nat := none
  Height : Option Nat := none
  Frames : Option Nat := none
  Slices : Option Nat := none
  Channels : Option Nat := none
  MicroManagerVersion : Option String := none
  z_step_um : Option Rat := none
  UserData : Option UserDataT := none
  StartTime : Option String := none
deriving DecidableEq, Repr

/-- A parsed `metadata.txt`: top-level keys in document order (CPython `dict`
preserves insertion order, and `json.load` keeps the last duplicate, so keys
are distinct in any document produced by `json.load`). -/
abbrev Doc : Type := List (String × JEntry)

/-- Image coordinate `(position, time, channel, z-slice)`. -/
abbrev Coord : Type := Nat × Nat × Nat × Nat

/-- One per-position zarr store.  The shape records the allocation arguments of
`zarr.zeros`; `planes` records, keyed by `(time, channel, z)`, the source file
assigned into each plane (file contents are abstracted: a plane is "assigned"
exactly when the Python loop executed an assignment for it, which is what the
`z == zarr.zeros(...)` emptiness test observes for non-blank images). -/
structure Store where
  frames : Nat
  channels : Nat
  slices : Nat
  height : Nat
  width : Nat
  planes : List ((Nat × Nat × Nat) × String)
deriving DecidableEq, Repr

/-- The attributes of a `MicromanagerSequenceReader` instance. -/
structure State where
  positions : List (Nat × Store) := []
  num_positions : Option Nat := none
  mm_meta : Option Doc := none
  stage_positions : Nat := 0
  z_step_size : Option Rat := none
  height : Nat := 0
  width : Nat := 0
  frames : Nat := 0
  slices : Nat := 0
  channels : Nat := 0
  channel_names : List String := []
  coord_to_filename : List (Coord × String) := []
  time_stamp : Option String := none
deriving DecidableEq, Repr

/-! ### Accessors with `KeyError` semantics -/

/-- Python `json_[k]` on a document. -/
def jsonGet (doc : Doc) (k : String) : Except Err JEntry :=
  match lookupD doc k with
  | some e => .ok e
  | none => .error (.keyError k)

/-- Python `e[fieldKey]` where the field was modelled as an `Option`. -/
def fieldGet {α : Type} (o : Option α) (fieldKey : String) : Except Err α :=
  match o with
  | some v => .ok v
  | none => .error (.keyError fieldKey)

/-- Python `int(s)` on a string (digits only; otherwise `ValueError`). -/
def intParse (cs : List Char) : Except Err Nat :=
  if !cs.isEmpty && cs.all Char.isDigit then .ok (digitsVal cs)
  else .error (.valueError "invalid literal for int")

/-! ### The schema parsers (`_mm1_meta_parser`, `_mm2beta_meta_parser`,
`_mm2gamma_meta_parser`) -/

/-- `_mm1_meta_parser`: flat summary block of the 1.4.22 schema. -/
def mm1_parse (s : State) (doc : Doc) : Except Err State := do
  let summary ← jsonGet doc "Summary"
  let zs ← fieldGet summary.z_step_um "z-step_um"
  let w ← fieldGet summary.Width "Width"
  let h ← fieldGet summary.Height "Height"
  let fr ← fieldGet summary.Frames "Frames"
  let sl ← fieldGet summary.Slices "Slices"
  let ch ← fieldGet summary.Channels "Channels"
  .ok { s with z_step_size := some zs, width := w, height := h,
               frames := fr, slices := sl, channels := ch }

/-- `_mm2beta_meta_parser`: width/height nested under `UserData` as strings. -/
def mm2beta_parse (s : State) (doc : Doc) : Except Err State := do
  let summary ← jsonGet doc "Summary"
  let zs ← fieldGet summary.z_step_um "z-step_um"
  let ud ← fieldGet summary.UserData "UserData"
  let wp ← fieldGet ud.Width "Width"
  let ws ← fieldGet wp.PropVal "PropVal"
  let w ← intParse ws.data
  let hp ← fieldGet ud.Height "Height"
  let hs ← fieldGet hp.PropVal "PropVal"
  let h ← intParse hs.data
  let st ← fieldGet summary.StartTime "StartTime"
  .ok { s with z_step_size := some zs, width := w, height := h,
               time_stamp := some st }

/-- `_mm2gamma_meta_parser`: width/height from the ROI string of the second
top-level key when it contains `"FrameKey-0-0-0"`, else from the Width/Height
fields of the third top-level key when it contains `"Metadata-"`, else
`ValueError`; frames/slices/channels/z-step from the summary block. -/
def mm2gamma_parse (s : State) (doc : Doc) : Except Err State := do
  let keys_list := doc.map (fun kv => kv.1)
  let s ←
    (match keys_list[1]? with
     | none => (.error .indexError : Except Err State)
     | some k1 =>
       if containsSub k1 "FrameKey-0-0-0" then do
         let e ← jsonGet doc k1
         let roi ← fieldGet e.ROI "ROI"
         let parts := splitCh '-' roi.data
         match parts[2]?, parts[3]? with
         | some ws, some hs => do
           let w ← intParse ws
           let h ← intParse hs
           .ok { s with width := w, height := h }
         | _, _ => .error .indexError
       else
         match keys_list[2]? with
         | none => .error .indexError
         | some k2 =>
           if containsSub k2 "Metadata-" then do
             let e ← jsonGet doc k2
             let w ← fieldGet e.Width "Width"
             let h ← fieldGet e.Height "Height"
             .ok { s with width := w, height := h }
           else .error (.valueError "Metadata file incompatible with metadata reader"))
  let summary ← jsonGet doc "Summary"
  let zs ← fieldGet summary.z_step_um "z-step_um"
  let fr ← fieldGet summary.Frames "Frames"
  let sl ← fieldGet summary.Slices "Slices"
  let ch ← fieldGet summary.Channels "Channels"
  .ok { s with z_step_size := some zs, frames := fr, slices := sl, channels := ch }

/-- `_set_mm_meta`: load one position's metadata document and dispatch on the
declared MicroManager version. -/
def set_mm_meta (s : State) (doc : Doc) : Except Err State := do
  let s := { s with mm_meta := some doc }
  let summary ← jsonGet doc "Summary"
  let v ← fieldGet summary.MicroManagerVersion "MicroManagerVersion"
  if v = "1.4.22" then mm1_parse s doc
  else if containsSub v "beta" then mm2beta_parse s doc
  else if containsSub v "gamma" then mm2gamma_parse s doc
  else .error (.unsupported v)

/-! ### Coordinate extraction (`_extract_coord_to_filename`) -/

/-- A coordinate-class key: contains `"Coords"` (gamma) or `"FrameKey"` (1.4.22). -/
def isCoordKey (k : String) : Bool :=
  containsSub k "Coords" || containsSub k "FrameKey"

/-- A Metadata-class key: contains `"Metadata"`. -/
def isMetaKey (k : String) : Bool :=
  containsSub k "Metadata"

/-- The `meta` dict: plane-identifying suffix of each Metadata-class key,
mapped to that key, in document order. -/
def metaMap (doc : Doc) : List (String × String) :=
  (doc.map (fun kv => kv.1)).foldl
    (fun m k => if isMetaKey k then dictInsert m (dashTail k) k else m) []

/-- The coordinate-class keys of a document, in document order (the Python
code iterates a `set` of them; the per-key work is order-independent for
documents whose coordinate tuples are distinct). -/
def coordKeys (doc : Doc) : List String :=
  (doc.map (fun kv => kv.1)).filter isCoordKey

/-- The `(position, time, channel, z)` tuple recorded at a coordinate-class
key, when all four required index fields are present. -/
def coordTuple (doc : Doc) (c : String) : Option Coord := do
  let e ← lookupD doc c
  let ch ← e.ChannelIndex
  let pos ← e.PositionIndex
  let t ← e.FrameIndex
  let z ← e.SliceIndex
  some (pos, t, ch, z)

/-- The log message emitted when a file-name lookup fails for key `c`. -/
def missingMsg (c : String) : String :=
  "metadata for supplied image coordinate " ++ c ++ " not found"

/-- The per-key loop of `_extract_coord_to_filename`.  Returns the emitted
error-log messages alongside the result.  The four index reads happen outside
the `try` block, so their `KeyError`s are neither logged nor annotated. -/
def extractLoop (doc : Doc) (meta : List (String × String))
    (parent_folder position : String) :
    List String → List (Coord × String) → List String →
    List String × Except Err (List (Coord × String))
  | [], acc, log => (log, .ok acc)
  | c :: rest, acc, log =>
    match lookupD doc c with
    | none => (log, .error (.keyError c))
    | some e =>
      match e.ChannelIndex with
      | none => (log, .error (.keyError "ChannelIndex"))
      | some ch_idx =>
        match e.PositionIndex with
        | none => (log, .error (.keyError "PositionIndex"))
        | some pos_idx =>
          match e.FrameIndex with
          | none => (log, .error (.keyError "FrameIndex"))
          | some time_idx =>
            match e.SliceIndex with
            | none => (log, .error (.keyError "SliceIndex"))
            | some z_idx =>
              match lookupD meta (dashTail c) with
              | some mkey =>
                match lookupD doc mkey with
                | none => (log ++ [missingMsg c], .error (.keyError mkey))
                | some me =>
                  match me.FileName with
                  | none => (log ++ [missingMsg c], .error (.keyError "FileName"))
                  | some filepath =>
                    extractLoop doc meta parent_folder position rest
                      (dictInsert acc (pos_idx, time_idx, ch_idx, z_idx)
                        (pathJoin parent_folder filepath)) log
              | none =>
                match e.FileName with
                | none => (log ++ [missingMsg c], .error (.keyError "FileName"))
                | some f0 =>
                  extractLoop doc meta parent_folder position rest
                    (dictInsert acc (pos_idx, time_idx, ch_idx, z_idx)
                      (pathJoin parent_folder (pathJoin position f0))) log

/-- `_extract_coord_to_filename`: map each image coordinate of one position's
metadata document to its absolute file path. -/
def extract_coord_to_filename (doc : Doc) (parent_folder position : String) :
    List String × Except Err (List (Coord × String)) :=
  if (coordKeys doc).isEmpty then
    ([], .error (.valueError "no image coordinates present in metadata"))
  else
    extractLoop doc (metaMap doc) parent_folder position (coordKeys doc) [] []

/-! ### Subdirectory discovery (`_get_sub_dirs`) -/

/-- `_get_sub_dirs`: `glob(os.path.join(f, '*/'))` produces
`f ++ "/" ++ name ++ "/"` for each immediate subdirectory `name` (given here
as `entries`, in filesystem order); each path is stripped back to its name and
the names are naturally sorted. -/
def get_sub_dirs (f : String) (entries : List String) : List String :=
  let sub_dir_path := entries.map (fun n => pathJoin f n ++ "/")
  let sub_dir_name := sub_dir_path.map (fun p => os_path_split_tail ⟨p.data.dropLast⟩)
  natsorted sub_dir_name

/-! ### Aggregation (`read_tiff_series`), derived extents, store building -/

/-- The per-position loop of `read_tiff_series`: parse each position's
metadata and union the partial maps (`dict.update`, later positions win). -/
def readLoop (folder : String) :
    List (String × Doc) → List (Coord × String) → List String →
    List String × Except Err (List (Coord × String))
  | [], acc, log => (log, .ok acc)
  | (pname, doc) :: rest, acc, log =>
    match extract_coord_to_filename doc folder pname with
    | (lg, .error e) => (log ++ lg, .error e)
    | (lg, .ok m) => readLoop folder rest (dictUpdate acc m) (log ++ lg)

/-- `read_tiff_series`: build the global coordinate-to-filename map over all
position subdirectories (`fs`, in `os.listdir` order) and record
`num_positions`. -/
def read_tiff_series (s : State) (folder : String) (fs : List (String × Doc)) :
    List String × Except Err State :=
  let positions := fs.map (fun kv => kv.1)
  if positions.isEmpty then
    ([], .error (.fileNotFound "no position subfolder found in supplied folder"))
  else
    match readLoop folder fs [] [] with
    | (log, .error e) => (log, .error e)
    | (log, .ok m) =>
      (log, .ok { s with coord_to_filename := m, num_positions := some positions.length })

/-- `_dims_from_coordinates`: frames/slices/channels become the number of
distinct values at tuple index 1 / 3 / 2 over the keys of the map. -/
def dims_from_coordinates (s : State) : State :=
  let t := (s.coord_to_filename.map (fun kv => kv.1.2.1)).toFinset
  let c := (s.coord_to_filename.map (fun kv => kv.1.2.2.1)).toFinset
  let z := (s.coord_to_filename.map (fun kv => kv.1.2.2.2)).toFinset
  { s with frames := t.card, slices := z.card, channels := c.card }

/-- `_create_stores`: allocate a zero store, assign every plane of position
`p`, reject a store that is still identical to the fresh zero store (no
assignment executed), and cache the result. -/
def create_stores (s : State) (p : Nat) : Except Err State :=
  let planes := s.coord_to_filename.foldl
    (fun acc kv =>
      if kv.1.1 = p then dictInsert acc (kv.1.2.1, kv.1.2.2.1, kv.1.2.2.2) kv.2
      else acc) []
  if planes = [] then .error (.ioError p)
  else
    let st := Store.mk s.frames s.channels s.slices s.height s.width planes
    .ok { s with positions := dictInsert s.positions p st }

/-- `get_zarr`: build the store for `position` unless already cached, then
return the cached store. -/
def get_zarr (s : State) (position : Nat) : Except Err (State × Store) :=
  match lookupD s.positions position with
  | some st => .ok (s, st)
  | none => do
    let s' ← create_stores s position
    match lookupD s'.positions position with
    | some st => .ok (s', st)
    | none => .error (.keyError "position")

/-- `get_num_positions`: returns `num_positions` only when at least one
position store has been extracted; otherwise logs an error and returns `None`. -/
def get_num_positions (s : State) : Option Nat :=
  if s.positions.isEmpty then none else s.num_positions

/-- `__init__`: the construction pipeline.  `fs` lists the position
subdirectories of `folder` (name and parsed `metadata.txt`), in filesystem
order. -/
def init_reader (folder : String) (fs : List (String × Doc))
    (extract_data : Bool) : Except Err State := do
  let s0 : State := {}
  let sub_dirs := get_sub_dirs folder (fs.map (fun kv => kv.1))
  match sub_dirs with
  | [] => .error (.attributeError
      "supplied folder does not contain position or default subdirectories")
  | first :: _ => do
    let doc ←
      match lookupD fs first with
      | some d => (.ok d : Except Err Doc)
      | none => .error (.fileNotFound "metadata.txt")
    let s1 ← set_mm_meta s0 doc
    let s2 ←
      match read_tiff_series s1 folder fs with
      | (_, r) => r
    let s3 := dims_from_coordinates s2
    if extract_data then create_stores s3 0 else .ok s3

/-! ### Claim-side specification functions

These follow the words of the specification (not the source); they are
compared against the source-derived functions above. -/

/-- The width/height decision of the gamma parser as the specification words
it: second key a coordinate-KEYED entry (substring `"Coords"` or
`"FrameKey"`, the spec's coordinate-class test) selects the ROI form; else a
Metadata-CLASS third key (substring `"Metadata"`) selects the Width/Height
form; else MalformedMetadata. -/
def spec_gamma_wh (doc : Doc) : Except Err (Nat × Nat) :=
  match (doc.map (fun kv => kv.1))[1]? with
  | none => .error .indexError
  | some k1 =>
    if isCoordKey k1 then do
      let e ← jsonGet doc k1
      let roi ← fieldGet e.ROI "ROI"
      let parts := splitCh '-' roi.data
      match parts[2]?, parts[3]? with
      | some ws, some hs => do
        let w ← intParse ws
        let h ← intParse hs
        .ok (w, h)
      | _, _ => .error .indexError
    else
      match (doc.map (fun kv => kv.1))[2]? with
      | none => .error .indexError
      | some k2 =>
        if isMetaKey k2 then do
          let e ← jsonGet doc k2
          let w ← fieldGet e.Width "Width"
          let h ← fieldGet e.Height "Height"
          .ok (w, h)
        else .error (.valueError "Metadata file incompatible with metadata reader")

/-- The width/height decision of the gamma parser as amended: the branch test
is containment of the exact substring `"FrameKey-0-0-0"` in the second key,
then of `"Metadata-"` in the third key. -/
def amended_gamma_wh (doc : Doc) : Except Err (Nat × Nat) :=
  match (doc.map (fun kv => kv.1))[1]? with
  | none => .error .indexError
  | some k1 =>
    if containsSub k1 "FrameKey-0-0-0" then do
      let e ← jsonGet doc k1
      let roi ← fieldGet e.ROI "ROI"
      let parts := splitCh '-' roi.data
      match parts[2]?, parts[3]? with
      | some ws, some hs => do
        let w ← intParse ws
        let h ← intParse hs
        .ok (w, h)
      | _, _ => .error .indexError
    else
      match (doc.map (fun kv => kv.1))[2]? with
      | none => .error .indexError
      | some k2 =>
        if containsSub k2 "Metadata-" then do
          let e ← jsonGet doc k2
          let w ← fieldGet e.Width "Width"
          let h ← fieldGet e.Height "Height"
          .ok (w, h)
        else .error (.valueError "Metadata file incompatible with metadata reader")

/-- The first of the four required index fields absent from an entry, in the
order the source reads them. -/
def firstMissing (e : JEntry) : Option String :=
  if e.ChannelIndex.isNone then some "ChannelIndex"
  else if e.PositionIndex.isNone then some "PositionIndex"
  else if e.FrameIndex.isNone then some "FrameIndex"
  else if e.SliceIndex.isNone then some "SliceIndex"
  else none

/-! ### Concrete fixtures (acquisitions used by witnesses and
counterexamples) -/

/-- A 1.4.22 summary block declaring 5 frames. -/
def sumEntry1422 : JEntry :=
  { MicroManagerVersion := some "1.4.22", z_step_um := some 1, Width := some 16,
    Height := some 16, Frames := some 5, Slices := some 1, Channels := some 1 }

/-- A legacy (`FrameKey`) per-plane entry. -/
def fkEntry (pos t ch z : Nat) (fn : String) : JEntry :=
  { ChannelIndex := some ch, PositionIndex := some pos, FrameIndex := some t,
    SliceIndex := some z, FileName := some fn }

/-- A 1.4.22 position document: two frames recorded although five declared. -/
def doc0 : Doc :=
  [("Summary", sumEntry1422),
   ("FrameKey-0-0-0", fkEntry 0 0 0 0 "img0.tif"),
   ("FrameKey-1-0-0", fkEntry 0 1 0 0 "img1.tif")]

/-- A one-position acquisition folder. -/
def fs0 : List (String × Doc) := [("Pos0", doc0)]

/-- A gamma summary block. -/
def sumEntryGamma : JEntry :=
  { MicroManagerVersion := some "2.0.0-gamma1", z_step_um := some 1,
    Frames := some 1, Slices := some 1, Channels := some 1 }

/-- A gamma per-plane coordinate entry with an ROI string declaring 5 × 6. -/
def coordEntry : JEntry :=
  { ChannelIndex := some 0, PositionIndex := some 0, FrameIndex := some 0,
    SliceIndex := some 0, ROI := some "0-0-5-6" }

/-- A gamma per-plane metadata entry declaring 7 × 8. -/
def metaEntryG : JEntry :=
  { Width := some 7, Height := some 8, FileName := some "Pos0/img.tif" }

/-- A gamma document whose second key is coordinate-keyed (`"Coords"` class)
but does not contain `"FrameKey-0-0-0"`. -/
def docG : Doc :=
  [("Summary", sumEntryGamma), ("Coords-D0", coordEntry), ("Metadata-D0", metaEntryG)]

/-- The state produced by the gamma parser on `docG`. -/
def gammaResState : State :=
  (mm2gamma_parse {} docG).toOption.getD {}

/-- A legacy per-plane entry lacking `ChannelIndex`. -/
def badEntry : JEntry :=
  { PositionIndex := some 0, FrameIndex := some 0, SliceIndex := some 0,
    FileName := some "img.tif" }

/-- A document whose single coordinate key lacks `ChannelIndex`. -/
def doc7 : Doc := [("Summary", sumEntry1422), ("FrameKey-0-0-0", badEntry)]

/-- A summary block declaring an unsupported version. -/
def sumEntryV2 : JEntry := { MicroManagerVersion := some "2.0.0" }

/-- A document declaring the unsupported version `"2.0.0"`. -/
def doc8 : Doc := [("Summary", sumEntryV2)]

/-- A reader state declaring 5 frames whose coordinate map records the frames
0 and 1 only (an acquisition stopped early), at position 0. -/
def s1ex : State :=
  { frames := 5, slices := 3, channels := 2,
    coord_to_filename := [((0, 0, 0, 0), "a.tif"), ((0, 1, 0, 0), "b.tif")] }

/-- A reader state whose coordinate map only mentions position 1. -/
def s3ex : State :=
  { frames := 1, slices := 1, channels := 1, height := 4, width := 4,
    coord_to_filename := [((1, 0, 0, 0), "a.tif")] }

/-- The state after `_set_mm_meta` on `doc0`. -/
def s10a : State := (set_mm_meta {} doc0).toOption.getD {}

/-- The state after `read_tiff_series` following `s10a`. -/
def s10b : State := (read_tiff_series s10a "root" fs0).2.toOption.getD {}

/-- The log emitted by `read_tiff_series` following `s10a`. -/
def lg10 : List String := (read_tiff_series s10a "root" fs0).1

/-- The state of a fully constructed reader over `fs0` with eager
extraction. -/
def s2ex : State := (init_reader "root" fs0 true).toOption.getD {}

/-- A reader state with one coordinate at position 0, store not yet built. -/
def s6ex : State :=
  { frames := 1, slices := 1, channels := 1,
    coord_to_filename := [((0, 0, 0, 0), "a.tif")] }

/-- The store `get_zarr s6ex 0` builds. -/
def store6 : Store := ⟨1, 1, 1, 0, 0, [((0, 0, 0), "a.tif")]⟩

/-- `s6ex` after the store for position 0 was built and cached. -/
def s6ex' : State := { s6ex with positions := [(0, store6)] }

/-! ### Dictionary lemmas -/

theorem lookupD_cons_of_eq {α β : Type} [DecidableEq α] (hd : α × β)
    (tl : List (α × β)) (k : α) (h : hd.1 = k) :
    lookupD (hd :: tl) k = some hd.2 := by
  simp [lookupD, List.find?, h]

theorem lookupD_cons_of_ne {α β : Type} [DecidableEq α] (hd : α × β)
    (tl : List (α × β)) (k : α) (h : hd.1 ≠ k) :
    lookupD (hd :: tl) k = lookupD tl k := by
  simp [lookupD, List.find?, h]

theorem lookupD_map_update_of_mem {α β : Type} [DecidableEq α]
    (l : List (α × β)) (k : α) (v : β)
    (hany : l.any (fun kv => kv.1 = k) = true) :
    lookupD (l.map (fun kv => if kv.1 = k then (k, v) else kv)) k = some v := by
  induction l with
  | nil => simp at hany
  | cons hd tl ih =>
    by_cases h : hd.1 = k
    · rw [List.map_cons, if_pos h]
      exact lookupD_cons_of_eq _ _ _ rfl
    · rw [List.map_cons, if_neg h, lookupD_cons_of_ne _ _ _ h]
      apply ih
      simpa [h] using hany

theorem lookupD_map_update_ne {α β : Type} [DecidableEq α]
    (l : List (α × β)) (k k' : α) (v : β) (h : k' ≠ k) :
    lookupD (l.map (fun kv => if kv.1 = k then (k, v) else kv)) k' = lookupD l k' := by
  induction l with
  | nil => rfl
  | cons hd tl ih =>
    by_cases hh : hd.1 = k
    · rw [List.map_cons, if_pos hh,
        lookupD_cons_of_ne _ _ _ (fun hc => h hc.symm),
        lookupD_cons_of_ne _ _ _ (by rw [hh]; exact fun hc => h hc.symm)]
      exact ih
    · rw [List.map_cons, if_neg hh]
      by_cases hk' : hd.1 = k'
      · rw [lookupD_cons_of_eq _ _ _ hk', lookupD_cons_of_eq _ _ _ hk']
      · rw [lookupD_cons_of_ne _ _ _ hk', lookupD_cons_of_ne _ _ _ hk']
        exact ih

theorem lookupD_append_single_self {α β : Type} [DecidableEq α]
    (l : List (α × β)) (k : α) (v : β) :
    lookupD (l ++ [(k, v)]) k = (lookupD l k).getD v := by
  induction l with
  | nil => simp [lookupD, List.find?]
  | cons hd tl ih =>
    by_cases h : hd.1 = k
    · rw [List.cons_append, lookupD_cons_of_eq _ _ _ h, lookupD_cons_of_eq _ _ _ h]
      rfl
    · rw [List.cons_append, lookupD_cons_of_ne _ _ _ h, lookupD_cons_of_ne _ _ _ h]
      exact ih

theorem lookupD_append_single_ne {α β : Type} [DecidableEq α]
    (l : List (α × β)) (k k' : α) (v : β) (h : k' ≠ k) :
    lookupD (l ++ [(k, v)]) k' = lookupD l k' := by
  induction l with
  | nil => simp [lookupD, List.find?, h.symm]
  | cons hd tl ih =>
    by_cases hk' : hd.1 = k'
    · rw [List.cons_append, lookupD_cons_of_eq _ _ _ hk', lookupD_cons_of_eq _ _ _ hk']
    · rw [List.cons_append, lookupD_cons_of_ne _ _ _ hk', lookupD_cons_of_ne _ _ _ hk']
      exact ih

theorem lookupD_eq_none_of_not_any {α β : Type} [DecidableEq α]
    (l : List (α × β)) (k : α)
    (hany : l.any (fun kv => kv.1 = k) = false) :
    lookupD l k = none := by
  induction l with
  | nil => rfl
  | cons hd tl ih =>
    simp only [List.any_cons, Bool.or_eq_false_iff, decide_eq_false_iff_not] at hany
    rw [lookupD_cons_of_ne _ _ _ hany.1]
    exact ih (by simpa using hany.2)

theorem lookupD_dictInsert_self {α β : Type} [DecidableEq α]
    (l : List (α × β)) (k : α) (v : β) :
    lookupD (dictInsert l k v) k = some v := by
  unfold dictInsert
  split
  · exact lookupD_map_update_of_mem l k v (by assumption)
  · rename_i hany
    rw [lookupD_append_single_self,
      lookupD_eq_none_of_not_any l k (Bool.eq_false_iff.mpr hany)]
    rfl

theorem lookupD_dictInsert_ne {α β : Type} [DecidableEq α]
    (l : List (α × β)) (k k' : α) (v : β) (h : k' ≠ k) :
    lookupD (dictInsert l k v) k' = lookupD l k' := by
  unfold dictInsert
  split
  · exact lookupD_map_update_ne l k k' v h
  · exact lookupD_append_single_ne l k k' v h

/-! ### Store-building lemmas -/

theorem planes_foldl_no_match (l : List (Coord × String)) (p : Nat)
    (h : ∀ kv ∈ l, kv.1.1 ≠ p) (acc : List ((Nat × Nat × Nat) × String)) :
    l.foldl
      (fun acc kv =>
        if kv.1.1 = p then dictInsert acc (kv.1.2.1, kv.1.2.2.1, kv.1.2.2.2) kv.2
        else acc) acc = acc := by
  induction l generalizing acc with
  | nil => rfl
  | cons hd tl ih =>
    rw [List.foldl_cons, if_neg (h hd (List.mem_cons_self hd tl))]
    exact ih (fun kv hkv => h kv (List.mem_cons_of_mem hd hkv)) acc

theorem create_stores_ok (s : State) (p : Nat) (s' : State)
    (h : create_stores s p = .ok s') :
    ∃ st : Store, s'.positions = dictInsert s.positions p st ∧
      s'.num_positions = s.num_positions ∧ s'.width = s.width ∧
      s'.height = s.height ∧ s'.z_step_size = s.z_step_size ∧
      s'.coord_to_filename = s.coord_to_filename ∧ s'.frames = s.frames ∧
      s'.slices = s.slices ∧ s'.channels = s.channels := by
  simp only [create_stores] at h
  split at h
  · exact absurd h (by simp)
  · injection h with h
    subst h
    exact ⟨_, rfl, rfl, rfl, rfl, rfl, rfl, rfl, rfl, rfl⟩

theorem read_tiff_series_ok (s : State) (folder : String)
    (fs : List (String × Doc)) (lg : List String) (s' : State)
    (h : read_tiff_series s folder fs = (lg, .ok s')) :
    s'.num_positions = some fs.length ∧ s'.width = s.width ∧
    s'.height = s.height ∧ s'.z_step_size = s.z_step_size ∧
    s'.positions = s.positions ∧ s'.frames = s.frames ∧
    s'.slices = s.slices ∧ s'.channels = s.channels := by
  simp only [read_tiff_series] at h
  split at h
  · exact absurd h (by simp)
  · split at h
    · exact absurd h (by simp)
    · rename_i log m heq
      injection h with h1 h2
      injection h2 with h2
      subst h2
      refine ⟨?_, rfl, rfl, rfl, rfl, rfl, rfl, rfl⟩
      simp

theorem dims_preserves (s : State) :
    (dims_from_coordinates s).width = s.width ∧
    (dims_from_coordinates s).height = s.height ∧
    (dims_from_coordinates s).z_step_size = s.z_step_size ∧
    (dims_from_coordinates s).coord_to_filename = s.coord_to_filename ∧
    (dims_from_coordinates s).num_positions = s.num_positions ∧
    (dims_from_coordinates s).positions = s.positions :=
  ⟨rfl, rfl, rfl, rfl, rfl, rfl⟩

theorem bind_eq_ok {ε α β : Type} (x : Except ε α) (f : α → Except ε β) (b : β) :
    (x >>= f) = .ok b ↔ ∃ a, x = .ok a ∧ f a = .ok b := by
  cases x <;> simp [Bind.bind, Except.bind]

/-! ## Claim theorems -/

/-- C1: after construction, the derived frame, slice and channel extents are
the numbers of distinct values at tuple index 1 (time), 3 (z) and 2 (channel)
over the keys of the coordinate-to-filename map, whatever counts the summary
metadata declared; and when the observed time values are exactly `0..k-1`
with `k` below the declared frame count, the derived frame count is `k`. -/
theorem c1_derived_extents (s : State) (k : Nat)
    (hk : (s.coord_to_filename.map (fun kv => kv.1.2.1)).toFinset = Finset.range k)
    (hlt : k < s.frames) :
    (dims_from_coordinates s).frames
        = (s.coord_to_filename.map (fun kv => kv.1.2.1)).toFinset.card ∧
    (dims_from_coordinates s).slices
        = (s.coord_to_filename.map (fun kv => kv.1.2.2.2)).toFinset.card ∧
    (dims_from_coordinates s).channels
        = (s.coord_to_filename.map (fun kv => kv.1.2.2.1)).toFinset.card ∧
    (dims_from_coordinates s).frames = k := by
  refine ⟨rfl, rfl, rfl, ?_⟩
  show (s.coord_to_filename.map (fun kv => kv.1.2.1)).toFinset.card = k
  rw [hk, Finset.card_range]

theorem c1_witness :
    ((s1ex.coord_to_filename.map (fun kv => kv.1.2.1)).toFinset = Finset.range 2 ∧
      2 < s1ex.frames) ∧
    (dims_from_coordinates s1ex).frames = 2 :=
  ⟨⟨by decide, by decide⟩, (c1_derived_extents s1ex 2 (by decide) (by decide)).2.2.2⟩

/-- C3: requesting a store for a position index `p` matching no key of the
coordinate map fails with the `IOError` for `p` (the all-zero store is
detected and rejected), and the failure propagates out of `get_zarr` before
any cache insertion, so no entry for `p` is added. -/
theorem c3_position_not_found (s : State) (p : Nat)
    (h : ∀ kv ∈ s.coord_to_filename, kv.1.1 ≠ p)
    (hcache : lookupD s.positions p = none) :
    create_stores s p = .error (.ioError p) ∧
    get_zarr s p = .error (.ioError p) := by
  have hcs : create_stores s p = .error (.ioError p) := by
    simp only [create_stores, planes_foldl_no_match s.coord_to_filename p h]
    simp
  refine ⟨hcs, ?_⟩
  unfold get_zarr
  rw [hcache, hcs]
  rfl

theorem c3_witness :
    create_stores s3ex 0 = .error (.ioError 0) ∧
    get_zarr s3ex 0 = .error (.ioError 0) :=
  c3_position_not_found s3ex 0 (by decide) (by decide)

/-- C6: a second `get_zarr` call for the same position returns exactly the
cached store built by the first call, with the state unchanged (no rebuild). -/
theorem c6_cached_store (s : State) (p : Nat) (s₁ : State) (r₁ : Store)
    (h : get_zarr s p = .ok (s₁, r₁)) :
    get_zarr s₁ p = .ok (s₁, r₁) := by
  unfold get_zarr at h ⊢
  cases hl : lookupD s.positions p with
  | some st =>
    rw [hl] at h
    injection h with h
    injection h with hs hr
    subst hs; subst hr
    rw [hl]
  | none =>
    rw [hl] at h
    cases hc : create_stores s p with
    | error e => rw [hc] at h; exact absurd h (by simp [Bind.bind, Except.bind])
    | ok s' =>
      rw [hc] at h
      obtain ⟨st, hpos, -⟩ := create_stores_ok s p s' hc
      have hl' : lookupD s'.positions p = some st := by
        rw [hpos]; exact lookupD_dictInsert_self s.positions p st
      simp only [Bind.bind, Except.bind, hl'] at h
      injection h with h
      injection h with hs hr
      subst hs; subst hr
      rw [hl']

theorem c6_witness : get_zarr s6ex' 0 = .ok (s6ex', store6) :=
  c6_cached_store s6ex 0 s6ex' store6 (by decide)

/-- C8: a declared version other than `"1.4.22"` containing neither `"beta"`
nor `"gamma"` makes schema dispatch fail with the unsupported-schema error
carrying the offending version string. -/
theorem c8_unsupported_schema (s : State) (doc : Doc) (summary : JEntry)
    (v : String)
    (h1 : lookupD doc "Summary" = some summary)
    (h2 : summary.MicroManagerVersion = some v)
    (h3 : v ≠ "1.4.22")
    (h4 : containsSub v "beta" = false)
    (h5 : containsSub v "gamma" = false) :
    set_mm_meta s doc = .error (.unsupported v) := by
  simp only [set_mm_meta, jsonGet, fieldGet, h1, h2, Bind.bind, Except.bind,
    h3, h4, h5]
  simp [h3, h4, h5]

theorem c8_witness : set_mm_meta {} doc8 = .error (.unsupported "2.0.0") :=
  c8_unsupported_schema {} doc8 sumEntryV2 "2.0.0" (by decide) (by decide)
    (by decide) (by decide) (by decide)

/-- C10: the derived-extents step mutates only frames, slices and channels:
width, height, z-step, the coordinate map, the position count and the store
cache are unchanged, so width and height keep the schema parser's values. -/
theorem c10_dims_frame_effect (s : State) (doc : Doc) (folder : String)
    (fs : List (String × Doc)) (s₁ s₂ : State) (lg : List String)
    (h1 : set_mm_meta s doc = .ok s₁)
    (h2 : read_tiff_series s₁ folder fs = (lg, .ok s₂)) :
    (dims_from_coordinates s₂).width = s₂.width ∧
    (dims_from_coordinates s₂).height = s₂.height ∧
    (dims_from_coordinates s₂).z_step_size = s₂.z_step_size ∧
    (dims_from_coordinates s₂).coord_to_filename = s₂.coord_to_filename ∧
    (dims_from_coordinates s₂).num_positions = s₂.num_positions ∧
    (dims_from_coordinates s₂).positions = s₂.positions ∧
    (dims_from_coordinates s₂).width = s₁.width ∧
    (dims_from_coordinates s₂).height = s₁.height := by
  obtain ⟨-, hw, hh, -, -, -, -, -⟩ := read_tiff_series_ok s₁ folder fs lg s₂ h2
  exact ⟨rfl, rfl, rfl, rfl, rfl, rfl, (dims_preserves s₂).1.trans hw,
    (dims_preserves s₂).2.1.trans hh⟩

theorem c10_witness :
    (dims_from_coordinates s10b).width = s10b.width ∧
    (dims_from_coordinates s10b).height = s10b.height ∧
    (dims_from_coordinates s10b).z_step_size = s10b.z_step_size ∧
    (dims_from_coordinates s10b).coord_to_filename = s10b.coord_to_filename ∧
    (dims_from_coordinates s10b).num_positions = s10b.num_positions ∧
    (dims_from_coordinates s10b).positions = s10b.positions ∧
    (dims_from_coordinates s10b).width = s10a.width ∧
    (dims_from_coordinates s10b).height = s10a.height :=
  c10_dims_frame_effect {} doc0 "root" fs0 s10a s10b lg10 (by decide) (by decide)

/-- C2 counterexample: a reader constructed successfully with
`extract_data = false` has recorded one position subdirectory, yet the
position-count query returns nothing (the claim promises the integer 1
independently of extraction). -/
theorem c2_counterexample :
    (init_reader "root" fs0 false).map get_num_positions = .ok none ∧
    (init_reader "root" fs0 false).map (fun s => s.num_positions)
      = .ok (some 1) := by
  constructor <;> decide

/-- C2 (amended): for every successfully constructed reader, the recorded
position count equals the number of position subdirectories, and the query
returns it exactly when at least one position store has been extracted;
with an empty store cache it returns nothing. -/
theorem c2_position_count (folder : String) (fs : List (String × Doc))
    (ed : Bool) (s : State) (h : init_reader folder fs ed = .ok s) :
    s.num_positions = some fs.length ∧
    (s.positions.isEmpty = false → get_num_positions s = some fs.length) ∧
    (s.positions.isEmpty = true → get_num_positions s = none) := by
  have hnum : s.num_positions = some fs.length := by
    simp only [init_reader] at h
    split at h
    · exact absurd h (by simp)
    · split at h
      · rw [bind_eq_ok] at h
        obtain ⟨y, hy, h⟩ := h
        injection hy with hy
        subst hy
        rw [bind_eq_ok] at h
        obtain ⟨s₁, hs₁, h⟩ := h
        rw [bind_eq_ok] at h
        obtain ⟨s₂, hs₂, h⟩ := h
        have heq : read_tiff_series s₁ folder fs
            = ((read_tiff_series s₁ folder fs).1, .ok s₂) := by
          rw [← hs₂]
        obtain ⟨hn2, -, -, -, -, -, -, -⟩ :=
          read_tiff_series_ok s₁ folder fs _ s₂ heq
        split at h
        · obtain ⟨st, hpos, hnum', -, -, -, -, -, -, -⟩ :=
            create_stores_ok (dims_from_coordinates s₂) 0 s h
          rw [hnum', (dims_preserves s₂).2.2.2.2.1]
          exact hn2
        · injection h with h
          subst h
          rw [(dims_preserves s₂).2.2.2.2.1]
          exact hn2
      · rw [bind_eq_ok] at h
        obtain ⟨a, ha, -⟩ := h
        exact absurd ha (by simp)
  refine ⟨hnum, ?_, ?_⟩ <;> intro hp <;> simp [get_num_positions, hp, hnum]

theorem c2_witness :
    s2ex.num_positions = some 1 ∧
    (s2ex.positions.isEmpty = false → get_num_positions s2ex = some 1) ∧
    (s2ex.positions.isEmpty = true → get_num_positions s2ex = none) :=
  c2_position_count "root" fs0 true s2ex (by decide)

/-- C7 counterexample: a coordinate key lacking `ChannelIndex` makes
extraction fail with a bare `KeyError "ChannelIndex"` — the emitted log is
empty (the claim requires the missing field to be logged) and the error does
not name the offending coordinate key. -/
theorem c7_counterexample :
    (extract_coord_to_filename doc7 "root" "Pos0").1 = [] ∧
    (extract_coord_to_filename doc7 "root" "Pos0").2
      = .error (.keyError "ChannelIndex") := by
  constructor <;> decide

/-- C7 (amended): when the first coordinate-class key of the document lacks a
required index field, extraction fails with a `KeyError` naming only the
first missing field (in the read order ChannelIndex, PositionIndex,
FrameIndex, SliceIndex), and nothing is logged. -/
theorem c7_missing_field (doc : Doc) (parent position c : String)
    (rest : List String) (e : JEntry) (f : String)
    (hc : coordKeys doc = c :: rest)
    (he : lookupD doc c = some e)
    (hf : firstMissing e = some f) :
    extract_coord_to_filename doc parent position
      = ([], .error (.keyError f)) := by
  unfold extract_coord_to_filename
  rw [hc]
  simp only [List.isEmpty_cons, Bool.false_eq_true, if_false]
  cases hch : e.ChannelIndex with
  | none =>
    simp only [firstMissing, hch, Option.isNone_none, if_pos] at hf
    injection hf with hf
    subst hf
    simp [extractLoop, he, hch]
  | some ch =>
    cases hpo : e.PositionIndex with
    | none =>
      simp only [firstMissing, hch, hpo, Option.isNone_none, Option.isNone_some,
        if_pos, if_neg, Bool.false_eq_true, if_false] at hf
      injection hf with hf
      subst hf
      simp [extractLoop, he, hch, hpo]
    | some po =>
      cases hfr : e.FrameIndex with
      | none =>
        simp only [firstMissing, hch, hpo, hfr, Option.isNone_none,
          Option.isNone_some, Bool.false_eq_true, if_false, if_pos] at hf
        injection hf with hf
        subst hf
        simp [extractLoop, he, hch, hpo, hfr]
      | some fr =>
        cases hsl : e.SliceIndex with
        | none =>
          simp only [firstMissing, hch, hpo, hfr, hsl, Option.isNone_none,
            Option.isNone_some, Bool.false_eq_true, if_false, if_pos] at hf
          injection hf with hf
          subst hf
          simp [extractLoop, he, hch, hpo, hfr, hsl]
        | some sl =>
          simp [firstMissing, hch, hpo, hfr, hsl] at hf

theorem c7_witness :
    extract_coord_to_filename doc7 "root" "Pos0"
      = ([], .error (.keyError "ChannelIndex")) :=
  c7_missing_field doc7 "root" "Pos0" "FrameKey-0-0-0" [] badEntry
    "ChannelIndex" (by decide) (by decide) (by decide)


/-! ### Ordering lemmas for the natural-sort comparator -/

theorem natCmp_swap (a b : Nat) : natCmp a b = (natCmp b a).swap := by
  unfold natCmp
  split_ifs <;> first | rfl | omega

theorem natCmp_eq (a b : Nat) (h : natCmp a b = .eq) : a = b := by
  unfold natCmp at h
  split_ifs at h <;> first | omega | exact Ordering.noConfusion h

theorem natCmp_lt_trans (a b c : Nat) (h1 : natCmp a b = .lt)
    (h2 : natCmp b c = .lt) : natCmp a c = .lt := by
  unfold natCmp at h1 h2 ⊢
  split_ifs at h1 h2 ⊢ <;>
    first | rfl | omega | exact Ordering.noConfusion h1 | exact Ordering.noConfusion h2

theorem charCmp_swap (a b : Char) : charCmp a b = (charCmp b a).swap :=
  natCmp_swap _ _

theorem charCmp_eq (a b : Char) (h : charCmp a b = .eq) : a = b :=
  Char.ext (UInt32.ext (natCmp_eq _ _ h))

theorem charCmp_lt_trans (a b c : Char) (h1 : charCmp a b = .lt)
    (h2 : charCmp b c = .lt) : charCmp a c = .lt :=
  natCmp_lt_trans _ _ _ h1 h2

theorem strCmp_swap (a : List Char) : ∀ b, strCmp a b = (strCmp b a).swap := by
  induction a with
  | nil => intro b; cases b <;> rfl
  | cons x xs ih =>
    intro b
    cases b with
    | nil => rfl
    | cons y ys =>
      simp only [strCmp]
      rw [charCmp_swap]
      cases h : charCmp y x <;> simp [h, Ordering.swap, ih ys]

theorem strCmp_eq (a : List Char) : ∀ b, strCmp a b = .eq → a = b := by
  induction a with
  | nil =>
    intro b h
    cases b with
    | nil => rfl
    | cons _ _ => exact Ordering.noConfusion h
  | cons x xs ih =>
    intro b h
    cases b with
    | nil => exact Ordering.noConfusion h
    | cons y ys =>
      simp only [strCmp] at h
      cases hc : charCmp x y <;> rw [hc] at h
      · exact Ordering.noConfusion h
      · rw [charCmp_eq x y hc, ih ys h]
      · exact Ordering.noConfusion h

theorem strCmp_lt_trans (a : List Char) :
    ∀ b c, strCmp a b = .lt → strCmp b c = .lt → strCmp a c = .lt := by
  induction a with
  | nil =>
    intro b c h1 h2
    cases b with
    | nil => exact Ordering.noConfusion h1
    | cons y ys =>
      cases c with
      | nil => exact Ordering.noConfusion h2
      | cons z zs => rfl
  | cons x xs ih =>
    intro b c h1 h2
    cases b with
    | nil => exact Ordering.noConfusion h1
    | cons y ys =>
      cases c with
      | nil => exact Ordering.noConfusion h2
      | cons z zs =>
        simp only [strCmp] at h1 h2 ⊢
        cases hxy : charCmp x y <;> rw [hxy] at h1
        · cases hyz : charCmp y z <;> rw [hyz] at h2
          · rw [charCmp_lt_trans x y z hxy hyz]
          · obtain rfl := charCmp_eq y z hyz
            rw [hxy]
          · exact Ordering.noConfusion h2
        · obtain rfl := charCmp_eq x y hxy
          replace h1 : strCmp xs ys = Ordering.lt := h1
          cases hyz : charCmp x z
          · rfl
          · rw [hyz] at h2
            exact ih ys zs h1 h2
          · rw [hyz] at h2
            exact Ordering.noConfusion h2
        · exact Ordering.noConfusion h1

theorem tokCmp_swap (a b : Tok) : tokCmp a b = (tokCmp b a).swap := by
  cases a <;> cases b
  · exact strCmp_swap _ _
  · rfl
  · rfl
  · exact natCmp_swap _ _

theorem tokCmp_eq (a b : Tok) (h : tokCmp a b = .eq) : a = b := by
  cases a <;> cases b
  · exact congrArg Tok.txt (strCmp_eq _ _ h)
  · exact Ordering.noConfusion h
  · exact Ordering.noConfusion h
  · exact congrArg Tok.num (natCmp_eq _ _ h)

theorem tokCmp_lt_trans (a b c : Tok) (h1 : tokCmp a b = .lt)
    (h2 : tokCmp b c = .lt) : tokCmp a c = .lt := by
  cases a <;> cases b <;> cases c <;>
    first
      | exact Ordering.noConfusion h1
      | exact Ordering.noConfusion h2
      | rfl
      | exact strCmp_lt_trans _ _ _ h1 h2
      | exact natCmp_lt_trans _ _ _ h1 h2

theorem keyCmp_swap (a : List Tok) : ∀ b, keyCmp a b = (keyCmp b a).swap := by
  induction a with
  | nil => intro b; cases b <;> rfl
  | cons x xs ih =>
    intro b
    cases b with
    | nil => rfl
    | cons y ys =>
      simp only [keyCmp]
      rw [tokCmp_swap]
      cases h : tokCmp y x <;> simp [h, Ordering.swap, ih ys]

theorem keyCmp_eq (a : List Tok) : ∀ b, keyCmp a b = .eq → a = b := by
  induction a with
  | nil =>
    intro b h
    cases b with
    | nil => rfl
    | cons _ _ => exact Ordering.noConfusion h
  | cons x xs ih =>
    intro b h
    cases b with
    | nil => exact Ordering.noConfusion h
    | cons y ys =>
      simp only [keyCmp] at h
      cases hc : tokCmp x y <;> rw [hc] at h
      · exact Ordering.noConfusion h
      · rw [tokCmp_eq x y hc, ih ys h]
      · exact Ordering.noConfusion h

theorem keyCmp_lt_trans (a : List Tok) :
    ∀ b c, keyCmp a b = .lt → keyCmp b c = .lt → keyCmp a c = .lt := by
  induction a with
  | nil =>
    intro b c h1 h2
    cases b with
    | nil => exact Ordering.noConfusion h1
    | cons y ys =>
      cases c with
      | nil => exact Ordering.noConfusion h2
      | cons z zs => rfl
  | cons x xs ih =>
    intro b c h1 h2
    cases b with
    | nil => exact Ordering.noConfusion h1
    | cons y ys =>
      cases c with
      | nil => exact Ordering.noConfusion h2
      | cons z zs =>
        simp only [keyCmp] at h1 h2 ⊢
        cases hxy : tokCmp x y <;> rw [hxy] at h1
        · cases hyz : tokCmp y z <;> rw [hyz] at h2
          · rw [tokCmp_lt_trans x y z hxy hyz]
          · obtain rfl := tokCmp_eq y z hyz
            rw [hxy]
          · exact Ordering.noConfusion h2
        · obtain rfl := tokCmp_eq x y hxy
          replace h1 : keyCmp xs ys = Ordering.lt := h1
          cases hyz : tokCmp x z
          · rfl
          · rw [hyz] at h2
            exact ih ys zs h1 h2
          · rw [hyz] at h2
            exact Ordering.noConfusion h2
        · exact Ordering.noConfusion h1

theorem natR_iff (a b : String) :
    natR a b ↔ keyCmp (natKey a) (natKey b) ≠ .gt := by
  simp [natR, natLeB]

theorem natR_total (a b : String) : natR a b ∨ natR b a := by
  rw [natR_iff, natR_iff]
  by_cases h : keyCmp (natKey a) (natKey b) = .gt
  · right
    rw [keyCmp_swap, h]
    decide
  · exact Or.inl h

theorem natR_trans (a b c : String) (h1 : natR a b) (h2 : natR b c) :
    natR a c := by
  rw [natR_iff] at h1 h2 ⊢
  cases hab : keyCmp (natKey a) (natKey b) with
  | eq => rw [keyCmp_eq _ _ hab]; exact h2
  | gt => exact absurd hab h1
  | lt =>
    cases hbc : keyCmp (natKey b) (natKey c) with
    | eq => rw [← keyCmp_eq _ _ hbc]; rw [hab]; decide
    | gt => exact absurd hbc h2
    | lt => rw [keyCmp_lt_trans _ _ _ hab hbc]; decide

instance : IsTotal String natR := ⟨natR_total⟩

instance : IsTrans String natR := ⟨natR_trans⟩

/-! ### Path-splitting lemmas -/

theorem splitCh_ne_nil (sep : Char) (l : List Char) : splitCh sep l ≠ [] := by
  cases l with
  | nil => simp [splitCh]
  | cons c cs =>
    simp only [splitCh]
    split
    · simp
    · split <;> simp

theorem splitCh_not_mem (sep : Char) (l : List Char) (h : sep ∉ l) :
    splitCh sep l = [l] := by
  induction l with
  | nil => rfl
  | cons c cs ih =>
    have hc : ¬ c = sep := fun hh => h (hh ▸ List.mem_cons_self c cs)
    have hcs : sep ∉ cs := fun hh => h (List.mem_cons_of_mem c hh)
    simp only [splitCh, if_neg hc, ih hcs]

theorem two_le_splitCh (sep : Char) (l : List Char) (h : sep ∈ l) :
    2 ≤ (splitCh sep l).length := by
  induction l with
  | nil => cases h
  | cons c cs ih =>
    simp only [splitCh]
    by_cases hc : c = sep
    · rw [if_pos hc]
      have h1 : splitCh sep cs ≠ [] := splitCh_ne_nil sep cs
      have h2 : 1 ≤ (splitCh sep cs).length := by
        cases hsp : splitCh sep cs with
        | nil => exact absurd hsp h1
        | cons hd tl => simp
      simpa using Nat.succ_le_succ h2
    · rw [if_neg hc]
      have hmem : sep ∈ cs := by
        rcases List.mem_cons.mp h with hh | hh
        · exact absurd hh.symm hc
        · exact hh
      have h2 := ih hmem
      cases hsp : splitCh sep cs with
      | nil => exact absurd hsp (splitCh_ne_nil sep cs)
      | cons hd tl =>
        rw [hsp] at h2
        simpa using h2

theorem getLastD_irrel {α : Type} (l : List α) (h : l ≠ []) (d d' : α) :
    l.getLastD d = l.getLastD d' := by
  cases l with
  | nil => exact absurd rfl h
  | cons a as => rw [List.getLastD_cons, List.getLastD_cons]

theorem getLastD_splitCh_append (sep : Char) (xs ys : List Char) :
    (splitCh sep (xs ++ sep :: ys)).getLastD [] = (splitCh sep ys).getLastD [] := by
  induction xs with
  | nil =>
    have hsp : splitCh sep (sep :: ys) = [] :: splitCh sep ys := by
      simp [splitCh]
    rw [List.nil_append, hsp, List.getLastD_cons]
  | cons c cs ih =>
    simp only [List.cons_append, splitCh]
    by_cases hc : c = sep
    · rw [if_pos hc, List.getLastD_cons, ← ih]
      exact getLastD_irrel _ (splitCh_ne_nil sep (cs ++ sep :: ys)) _ _
    · rw [if_neg hc]
      cases hsp : splitCh sep (cs ++ sep :: ys) with
      | nil => exact absurd hsp (splitCh_ne_nil sep (cs ++ sep :: ys))
      | cons hd tl =>
        have hlen : 2 ≤ (splitCh sep (cs ++ sep :: ys)).length :=
          two_le_splitCh sep (cs ++ sep :: ys) (by simp)
        rw [hsp] at hlen
        have htl : tl ≠ [] := by
          intro hh
          rw [hh] at hlen
          simp at hlen
        rw [List.getLastD_cons, getLastD_irrel tl htl (c :: hd) hd]
        rw [hsp, List.getLastD_cons] at ih
        exact ih

theorem string_mk_data (s : String) : String.mk s.data = s := by
  cases s
  rfl

theorem strip_path (f n : String) (h : '/' ∉ n.data) :
    os_path_split_tail ⟨(pathJoin f n ++ "/").data.dropLast⟩ = n := by
  have hd : (pathJoin f n ++ "/").data = (f.data ++ '/' :: n.data) ++ ['/'] := by
    simp [pathJoin, String.data_append]
  rw [os_path_split_tail]
  show (String.mk ((splitCh '/' ((pathJoin f n ++ "/").data.dropLast)).getLastD []))
      = n
  rw [hd, List.dropLast_concat, getLastD_splitCh_append, splitCh_not_mem '/' n.data h]
  exact string_mk_data n

/-- C9: subdirectory discovery returns the names (not the glob paths) of the
immediate subdirectories, as a naturally sorted permutation of the discovered
names; in particular filesystem order `["pos10", "pos1", "pos2"]` comes back
as `["pos1", "pos2", "pos10"]`. -/
theorem c9_subdir_discovery (f : String) (entries : List String)
    (h : ∀ n ∈ entries, '/' ∉ n.data) :
    (get_sub_dirs f entries).Perm entries ∧
    List.Sorted natR (get_sub_dirs f entries) ∧
    get_sub_dirs "root" ["pos10", "pos1", "pos2"] = ["pos1", "pos2", "pos10"] := by
  have hmap : (entries.map (fun n => pathJoin f n ++ "/")).map
      (fun p => os_path_split_tail ⟨p.data.dropLast⟩) = entries := by
    rw [List.map_map]
    have hcong : ∀ n ∈ entries,
        ((fun p => os_path_split_tail ⟨p.data.dropLast⟩) ∘
          (fun n => pathJoin f n ++ "/")) n = id n := by
      intro n hn
      exact strip_path f n (h n hn)
    rw [List.map_congr_left hcong, List.map_id]
  have hrw : get_sub_dirs f entries = natsorted entries := by
    simp only [get_sub_dirs]
    rw [hmap]
  refine ⟨?_, ?_, by decide⟩
  · rw [hrw]
    exact List.perm_insertionSort natR entries
  · rw [hrw]
    exact List.sorted_insertionSort natR entries

theorem c9_witness :
    (get_sub_dirs "root" ["pos10", "pos1", "pos2"]).Perm
      ["pos10", "pos1", "pos2"] ∧
    List.Sorted natR (get_sub_dirs "root" ["pos10", "pos1", "pos2"]) ∧
    get_sub_dirs "root" ["pos10", "pos1", "pos2"] = ["pos1", "pos2", "pos10"] :=
  c9_subdir_discovery "root" ["pos10", "pos1", "pos2"] (by decide)

/-! ### Extraction-loop lemmas -/

theorem extractLoop_acc_lookup (doc : Doc) (meta : List (String × String))
    (parent position : String) :
    ∀ (cs : List String) (acc : List (Coord × String)) (log log' : List String)
      (m : List (Coord × String)),
      extractLoop doc meta parent position cs acc log = (log', .ok m) →
      ∀ k v, lookupD acc k = some v →
        (∀ c ∈ cs, coordTuple doc c ≠ some k) →
        lookupD m k = some v := by
  intro cs
  induction cs with
  | nil =>
    intro acc log log' m h k v hacc _
    injection h with h1 h2
    injection h2 with h2
    subst h2
    exact hacc
  | cons c rest ih =>
    intro acc log log' m h k v hacc hnot
    simp only [extractLoop] at h
    split at h
    · exact absurd h (by simp)
    · rename_i e he
      split at h
      · exact absurd h (by simp)
      · rename_i ch hch
        split at h
        · exact absurd h (by simp)
        · rename_i po hpo
          split at h
          · exact absurd h (by simp)
          · rename_i fr hfr
            split at h
            · exact absurd h (by simp)
            · rename_i zi hzi
              have htup : coordTuple doc c = some (po, fr, ch, zi) := by
                simp [coordTuple, he, hch, hpo, hfr, hzi]
              have hne : ¬ k = (po, fr, ch, zi) := by
                intro hh
                exact hnot c (List.mem_cons_self c rest) (by rw [htup, hh])
              split at h
              · rename_i mkey hmk
                split at h
                · exact absurd h (by simp)
                · rename_i me hme
                  split at h
                  · exact absurd h (by simp)
                  · rename_i fp hfp
                    refine ih _ _ _ _ h k v ?_
                      (fun c' hc' => hnot c' (List.mem_cons_of_mem c hc'))
                    rw [lookupD_dictInsert_ne _ _ _ _ hne]
                    exact hacc
              · split at h
                · exact absurd h (by simp)
                · rename_i fp hfp
                  refine ih _ _ _ _ h k v ?_
                    (fun c' hc' => hnot c' (List.mem_cons_of_mem c hc'))
                  rw [lookupD_dictInsert_ne _ _ _ _ hne]
                  exact hacc

theorem extractLoop_mem (doc : Doc) (meta : List (String × String))
    (parent position : String) :
    ∀ (cs : List String) (acc : List (Coord × String)) (log0 log' : List String)
      (m : List (Coord × String)),
      extractLoop doc meta parent position cs acc log0 = (log', .ok m) →
      (cs.filterMap (coordTuple doc)).Nodup →
      ∀ c ∈ cs, ∃ e ch po fr zi,
        lookupD doc c = some e ∧ e.ChannelIndex = some ch ∧
        e.PositionIndex = some po ∧ e.FrameIndex = some fr ∧
        e.SliceIndex = some zi ∧
        ((∃ mk me fn, lookupD meta (dashTail c) = some mk ∧
            lookupD doc mk = some me ∧ me.FileName = some fn ∧
            lookupD m (po, fr, ch, zi) = some (pathJoin parent fn)) ∨
          (lookupD meta (dashTail c) = none ∧ ∃ fn,
            e.FileName = some fn ∧
            lookupD m (po, fr, ch, zi)
              = some (pathJoin parent (pathJoin position fn)))) := by
  intro cs
  induction cs with
  | nil =>
    intro acc log0 log' m h hnodup c hc
    cases hc
  | cons c0 rest ih =>
    intro acc log0 log' m h hnodup c hc
    simp only [extractLoop] at h
    split at h
    · exact absurd h (by simp)
    · rename_i e he
      split at h
      · exact absurd h (by simp)
      · rename_i ch hch
        split at h
        · exact absurd h (by simp)
        · rename_i po hpo
          split at h
          · exact absurd h (by simp)
          · rename_i fr hfr
            split at h
            · exact absurd h (by simp)
            · rename_i zi hzi
              have htup : coordTuple doc c0 = some (po, fr, ch, zi) := by
                simp [coordTuple, he, hch, hpo, hfr, hzi]
              have hnodup' : (rest.filterMap (coordTuple doc)).Nodup := by
                rw [List.filterMap_cons_some htup] at hnodup
                exact hnodup.of_cons
              have hnotin : ∀ c' ∈ rest, coordTuple doc c' ≠ some (po, fr, ch, zi) := by
                intro c' hc' hh
                rw [List.filterMap_cons_some htup] at hnodup
                exact (List.nodup_cons.mp hnodup).1
                  (List.mem_filterMap.mpr ⟨c', hc', hh⟩)
              split at h
              · rename_i mkey hmk
                split at h
                · exact absurd h (by simp)
                · rename_i me hme
                  split at h
                  · exact absurd h (by simp)
                  · rename_i fp hfp
                    rcases List.mem_cons.mp hc with rfl | hcr
                    · refine ⟨e, ch, po, fr, zi, he, hch, hpo, hfr, hzi, Or.inl
                        ⟨mkey, me, fp, hmk, hme, hfp, ?_⟩⟩
                      exact extractLoop_acc_lookup doc meta parent position rest _ _ _ _ h
                        (po, fr, ch, zi) (pathJoin parent fp)
                        (lookupD_dictInsert_self acc (po, fr, ch, zi) (pathJoin parent fp))
                        hnotin
                    · exact ih _ _ _ _ h hnodup' c hcr
              · rename_i hmk
                split at h
                · exact absurd h (by simp)
                · rename_i fp hfp
                  rcases List.mem_cons.mp hc with rfl | hcr
                  · refine ⟨e, ch, po, fr, zi, he, hch, hpo, hfr, hzi, Or.inr
                      ⟨hmk, fp, hfp, ?_⟩⟩
                    exact extractLoop_acc_lookup doc meta parent position rest _ _ _ _ h
                      (po, fr, ch, zi) (pathJoin parent (pathJoin position fp))
                      (lookupD_dictInsert_self acc (po, fr, ch, zi)
                        (pathJoin parent (pathJoin position fp)))
                      hnotin
                  · exact ih _ _ _ _ h hnodup' c hcr

/-- C4: for every coordinate-class key in a position document, the stored
path for its tuple is the acquisition root joined to: the paired
Metadata-entry file name unmodified when the plane-identifying suffix matches
a Metadata-class key, else the coordinate entry file name with the supplied
position directory prepended. -/
theorem c4_path_resolution (doc : Doc) (parent position : String)
    (log : List String) (m : List (Coord × String))
    (hok : extract_coord_to_filename doc parent position = (log, .ok m))
    (hnodup : ((coordKeys doc).filterMap (coordTuple doc)).Nodup) :
    ∀ c ∈ coordKeys doc, ∃ e ch po fr zi,
      lookupD doc c = some e ∧ e.ChannelIndex = some ch ∧
      e.PositionIndex = some po ∧ e.FrameIndex = some fr ∧
      e.SliceIndex = some zi ∧
      ((∃ mk me fn, lookupD (metaMap doc) (dashTail c) = some mk ∧
          lookupD doc mk = some me ∧ me.FileName = some fn ∧
          lookupD m (po, fr, ch, zi) = some (pathJoin parent fn)) ∨
        (lookupD (metaMap doc) (dashTail c) = none ∧ ∃ fn,
          e.FileName = some fn ∧
          lookupD m (po, fr, ch, zi)
            = some (pathJoin parent (pathJoin position fn)))) := by
  simp only [extract_coord_to_filename] at hok
  split at hok
  · exact absurd hok (by simp)
  · exact extractLoop_mem doc (metaMap doc) parent position (coordKeys doc)
      [] [] log m hok hnodup

theorem c4_witness : ∃ e ch po fr zi,
    lookupD doc0 "FrameKey-1-0-0" = some e ∧ e.ChannelIndex = some ch ∧
    e.PositionIndex = some po ∧ e.FrameIndex = some fr ∧
    e.SliceIndex = some zi ∧
    ((∃ mk me fn, lookupD (metaMap doc0) (dashTail "FrameKey-1-0-0") = some mk ∧
        lookupD doc0 mk = some me ∧ me.FileName = some fn ∧
        lookupD [((0, 0, 0, 0), pathJoin "root" (pathJoin "Pos0" "img0.tif")),
          ((0, 1, 0, 0), pathJoin "root" (pathJoin "Pos0" "img1.tif"))]
          (po, fr, ch, zi) = some (pathJoin "root" fn)) ∨
      (lookupD (metaMap doc0) (dashTail "FrameKey-1-0-0") = none ∧ ∃ fn,
        e.FileName = some fn ∧
        lookupD [((0, 0, 0, 0), pathJoin "root" (pathJoin "Pos0" "img0.tif")),
          ((0, 1, 0, 0), pathJoin "root" (pathJoin "Pos0" "img1.tif"))]
          (po, fr, ch, zi)
          = some (pathJoin "root" (pathJoin "Pos0" fn)))) :=
  c4_path_resolution doc0 "root" "Pos0"
    (extract_coord_to_filename doc0 "root" "Pos0").1
    [((0, 0, 0, 0), pathJoin "root" (pathJoin "Pos0" "img0.tif")),
      ((0, 1, 0, 0), pathJoin "root" (pathJoin "Pos0" "img1.tif"))]
    (by decide) (by decide) "FrameKey-1-0-0" (by decide)

theorem mm2gamma_amended_ok (s : State) (doc : Doc) (s' : State)
    (h : mm2gamma_parse s doc = .ok s') :
    amended_gamma_wh doc = .ok (s'.width, s'.height) := by
  simp only [mm2gamma_parse] at h
  split at h
  · rw [bind_eq_ok] at h
    obtain ⟨a, ha, -⟩ := h
    exact absurd ha (by simp)
  · rename_i k1 hk1
    split at h
    · rename_i hc
      rw [bind_eq_ok] at h
      obtain ⟨a, ha, htail⟩ := h
      rw [bind_eq_ok] at htail
      obtain ⟨summary, hsum, htail⟩ := htail
      rw [bind_eq_ok] at htail
      obtain ⟨zs, hzs, htail⟩ := htail
      rw [bind_eq_ok] at htail
      obtain ⟨fr, hfr, htail⟩ := htail
      rw [bind_eq_ok] at htail
      obtain ⟨sl, hsl, htail⟩ := htail
      rw [bind_eq_ok] at htail
      obtain ⟨chn, hchn, htail⟩ := htail
      injection htail with htail
      subst htail
      rw [bind_eq_ok] at ha
      obtain ⟨e, hje, ha⟩ := ha
      rw [bind_eq_ok] at ha
      obtain ⟨roi, hroi, ha⟩ := ha
      split at ha
      · rename_i ws hs hws hhs
        rw [bind_eq_ok] at ha
        obtain ⟨w, hw, ha⟩ := ha
        rw [bind_eq_ok] at ha
        obtain ⟨hh, hhh, ha⟩ := ha
        injection ha with ha
        subst ha
        simp [amended_gamma_wh, hk1, hc, hje, hroi, hws, hhs, hw, hhh,
          Bind.bind, Except.bind]
      · exact absurd ha (by simp)
    · rename_i hc
      split at h
      · rw [bind_eq_ok] at h
        obtain ⟨a, ha, -⟩ := h
        exact absurd ha (by simp)
      · rename_i k2 hk2
        split at h
        · rename_i hm
          rw [bind_eq_ok] at h
          obtain ⟨a, ha, htail⟩ := h
          rw [bind_eq_ok] at htail
          obtain ⟨summary, hsum, htail⟩ := htail
          rw [bind_eq_ok] at htail
          obtain ⟨zs, hzs, htail⟩ := htail
          rw [bind_eq_ok] at htail
          obtain ⟨fr, hfr, htail⟩ := htail
          rw [bind_eq_ok] at htail
          obtain ⟨sl, hsl, htail⟩ := htail
          rw [bind_eq_ok] at htail
          obtain ⟨chn, hchn, htail⟩ := htail
          injection htail with htail
          subst htail
          rw [bind_eq_ok] at ha
          obtain ⟨e, hje, ha⟩ := ha
          rw [bind_eq_ok] at ha
          obtain ⟨w, hw, ha⟩ := ha
          rw [bind_eq_ok] at ha
          obtain ⟨hh, hhh, ha⟩ := ha
          injection ha with ha
          subst ha
          simp [amended_gamma_wh, hk1, hc, hk2, hm, hje, hw, hhh,
            Bind.bind, Except.bind]
        · rw [bind_eq_ok] at h
          obtain ⟨a, ha, -⟩ := h
          exact absurd ha (by simp)

/-- C5 counterexample: on a gamma document whose second top-level key is
coordinate-keyed (class `"Coords"`) but does not contain `"FrameKey-0-0-0"`,
the parser takes the Metadata branch (width 7, height 8) although the claim
prescribes the ROI branch (width 5, height 6). -/
theorem c5_counterexample :
    (mm2gamma_parse {} docG).map (fun st => (st.width, st.height))
      = .ok (7, 8) ∧
    spec_gamma_wh docG = .ok (5, 6) ∧
    isCoordKey "Coords-D0" = true := by
  refine ⟨?_, ?_, ?_⟩ <;> decide

/-- C5 (amended): the gamma parser decides by testing whether the second
top-level key contains the substring `"FrameKey-0-0-0"` (ROI form: 3rd and
4th dash-separated fields), else whether the third key contains
`"Metadata-"` (Width/Height fields), else it fails with the
malformed-metadata `ValueError`. -/
theorem c5_gamma_decision (s : State) (doc : Doc) :
    (∀ s', mm2gamma_parse s doc = .ok s' →
        amended_gamma_wh doc = .ok (s'.width, s'.height)) ∧
    (∀ k1 k2, (doc.map (fun kv => kv.1))[1]? = some k1 →
        containsSub k1 "FrameKey-0-0-0" = false →
        (doc.map (fun kv => kv.1))[2]? = some k2 →
        containsSub k2 "Metadata-" = false →
        mm2gamma_parse s doc
          = .error (.valueError "Metadata file incompatible with metadata reader")) := by
  refine ⟨fun s' h => mm2gamma_amended_ok s doc s' h, ?_⟩
  intro k1 k2 hk1 hc hk2 hm
  simp [mm2gamma_parse, hk1, hc, hk2, hm, Bind.bind, Except.bind]

theorem c5_witness :
    amended_gamma_wh docG = .ok (gammaResState.width, gammaResState.height) :=
  (c5_gamma_decision {} docG).1 gammaResState (by decide)

end SinglePageTiff
